import Mathlib

/-!
Verification of the comment-classification and reply-linking pipeline of the
GitHub review analyzer (`src/processors.ts`, composed by `src/cli.ts`).

Strings are modelled as lists of characters (`Str`); JavaScript's
`String.prototype.includes`, `toLowerCase`, and the specific regular
expressions used by the source are translated into executable Lean
functions.  Timestamps (`Date` values compared via `getTime()`) are
modelled as integers (milliseconds).  `updatedAt` is modelled as
`Option Int` to capture the source's `comment.updatedAt || comment.createdAt`
fallback and the `updatedAt > createdAt` comparison (false when absent).
-/

abbrev Str := List Char

/-- JavaScript `toLowerCase`, restricted to ASCII case folding (all inputs
relevant to the source's keyword tables are ASCII or case-less glyphs). -/
def toLowerStr (s : Str) : Str := s.map Char.toLower

/-- Does `hay` start with `needle`? -/
def startsWithStr : Str → Str → Bool
  | [], _ => true
  | _ :: _, [] => false
  | n :: ns, h :: hs => n == h && startsWithStr ns hs

/-- JavaScript `hay.includes(needle)`: substring containment. -/
def containsStr (hay needle : Str) : Bool :=
  match hay with
  | [] => needle.isEmpty
  | _ :: t => startsWithStr needle hay || containsStr t needle

/-- Does `hay` end with `needle`?  (Models the `/bot$/i` regular expression
after case folding.) -/
def endsWithStr (hay needle : Str) : Bool :=
  startsWithStr needle.reverse hay.reverse

/-- Case-insensitive `startsWithStr`: models regular-expression matching with
the `i` flag at a fixed position. -/
def startsWithCI : Str → Str → Bool
  | [], _ => true
  | _ :: _, [] => false
  | n :: ns, h :: hs => n.toLower == h.toLower && startsWithCI ns hs

/-- A character matched by the regular-expression class `[a-f0-9]` with the
`i` flag. -/
def isHexCharCI (c : Char) : Bool :=
  let l := c.toLower
  (decide ('a' ≤ l) && decide (l ≤ 'f')) || (decide ('0' ≤ l) && decide (l ≤ '9'))

/-- Longest run (capped at `n`) of leading `[a-f0-9]` characters, kept in
their original case, as the greedy `([a-f0-9]{6,40})` capture group does. -/
def takeHexRun : Nat → Str → Str
  | _, [] => []
  | 0, _ => []
  | n + 1, c :: cs => if isHexCharCI c then c :: takeHexRun n cs else []

/- ---------------------------------------------------------------- -/
/- Data model (`src/types/core.ts` shapes, as used by `processors.ts`). -/

structure User where
  login : Str
  type : Str
  id : Int
deriving DecidableEq

structure Reaction where
  type : Str
  user : User
  createdAt : Int
  synthetic : Bool
deriving DecidableEq

inductive Comment where
  | mk (id : Int) (body : Str) (author : User) (createdAt : Int)
      (updatedAt : Option Int) (isResolved : Bool) (reactions : List Reaction)
      (replies : List Comment) (inReplyToId : Option Int)

def Comment.id : Comment → Int
  | .mk i _ _ _ _ _ _ _ _ => i

def Comment.body : Comment → Str
  | .mk _ b _ _ _ _ _ _ _ => b

def Comment.author : Comment → User
  | .mk _ _ a _ _ _ _ _ _ => a

def Comment.createdAt : Comment → Int
  | .mk _ _ _ ca _ _ _ _ _ => ca

def Comment.updatedAt : Comment → Option Int
  | .mk _ _ _ _ ua _ _ _ _ => ua

def Comment.isResolved : Comment → Bool
  | .mk _ _ _ _ _ r _ _ _ => r

def Comment.reactions : Comment → List Reaction
  | .mk _ _ _ _ _ _ rx _ _ => rx

def Comment.replies : Comment → List Comment
  | .mk _ _ _ _ _ _ _ rp _ => rp

def Comment.inReplyToId : Comment → Option Int
  | .mk _ _ _ _ _ _ _ _ ir => ir

/-- The spread `{...comment, isResolved: v}`. -/
def Comment.withResolved : Comment → Bool → Comment
  | .mk i b a ca ua _ rx rp ir, v => .mk i b a ca ua v rx rp ir

/-- The spread `{...comment, reactions: v}`. -/
def Comment.withReactions : Comment → List Reaction → Comment
  | .mk i b a ca ua r _ rp ir, v => .mk i b a ca ua r v rp ir

/-- The spread `{...comment, replies: v}`. -/
def Comment.withReplies : Comment → List Comment → Comment
  | .mk i b a ca ua r rx _ ir, v => .mk i b a ca ua r rx v ir

/- ---------------------------------------------------------------- -/
/- `DataProcessor` (`src/processors.ts`), one definition per method. -/

/-- Marker table of `hasExplicitResolutionMarkers`. -/
def explicitMarkers : List Str :=
  ["[resolved]", "✅", "[fixed]", "[done]", "☑️", "[completed]"].map String.data

/-- `hasExplicitResolutionMarkers` (`processors.ts:153`). -/
def hasExplicitResolutionMarkers (comment : Comment) : Bool :=
  let bodyLower := toLowerStr comment.body
  explicitMarkers.any (fun marker => containsStr bodyLower marker)

/-- `positiveTypes` table of `isPositiveReaction` (`processors.ts:215`). -/
def positiveTypes : List Str :=
  ["thumbs_up", "heart", "hooray", "rocket"].map String.data

/-- `isPositiveReaction` (`processors.ts:214`).  Reaction kinds are modelled
as raw strings because the runtime compares the possibly-unnormalized
`reaction.type` string against the table. -/
def isPositiveReaction (type : Str) : Bool :=
  positiveTypes.contains type

/-- `hasResolutionThroughEngagement` (`processors.ts:172`): at least two
positive reactions, with the empty-list guard of the source. -/
def hasResolutionThroughEngagement (comment : Comment) : Bool :=
  if comment.reactions.isEmpty then false
  else
    decide (2 ≤ (comment.reactions.filter (fun r => isPositiveReaction r.type)).length)

/-- Keyword table of `hasResolutionThroughEdits`. -/
def resolutionKeywords : List Str :=
  ["resolved", "fixed", "done", "completed", "addressed", "implemented",
   "updated"].map String.data

/-- `hasResolutionThroughEdits` (`processors.ts:190`): `updatedAt > createdAt`
(false when `updatedAt` is absent, as the JavaScript comparison is) and a
resolution keyword in the lower-cased body. -/
def hasResolutionThroughEdits (comment : Comment) : Bool :=
  match comment.updatedAt with
  | some u =>
      if comment.createdAt < u then
        let bodyLower := toLowerStr comment.body
        resolutionKeywords.any (fun keyword => containsStr bodyLower keyword)
      else false
  | none => false

/-- `isCommentResolved` (`processors.ts:131`). -/
def isCommentResolved (comment : Comment) : Bool :=
  if hasExplicitResolutionMarkers comment then true
  else if hasResolutionThroughEngagement comment then true
  else if hasResolutionThroughEdits comment then true
  else false

/-- `detectResolution` (`processors.ts:47`), with the source's empty-input
guard. -/
def detectResolution (comments : List Comment) : List Comment :=
  if comments.isEmpty then []
  else comments.map (fun comment => comment.withResolved (isCommentResolved comment))

/-- `validTypes` table of `normalizeReactionType`. -/
def validReactionTypes : List Str :=
  ["thumbs_up", "thumbs_down", "laugh", "hooray", "confused", "heart",
   "rocket", "eyes"].map String.data

/-- `aliases` table of `normalizeReactionType` (`processors.ts:244`),
in source order. -/
def reactionAliases : List (Str × Str) :=
  [("plus_one", "thumbs_up"), ("plusone", "thumbs_up"), ("+1", "thumbs_up"),
   ("minus_one", "thumbs_down"), ("minusone", "thumbs_down"),
   ("-1", "thumbs_down"), ("tada", "hooray"), ("party", "hooray"),
   ("celebrate", "hooray")].map (fun p => (p.1.data, p.2.data))

/-- The `type.toLowerCase().replace(/[^a-z_]/g, '')` step. -/
def stripToLowerAlpha (type : Str) : Str :=
  (toLowerStr type).filter (fun c => (decide ('a' ≤ c) && decide (c ≤ 'z')) || c == '_')

/-- `normalizeReactionType` (`processors.ts:231`): case-fold and strip, match
the closed table, then the alias table (object-key lookup), else `unknown`. -/
def normalizeReactionType (type : Str) : Str :=
  if validReactionTypes.contains (stripToLowerAlpha type) then stripToLowerAlpha type
  else
    match reactionAliases.find? (fun p => p.1 == stripToLowerAlpha type) with
    | some p => p.2
    | none => "unknown".data

/-- The keyword alternatives of the `... in commit ...` patterns
(`processors.ts:98-103` and the alternation at `processors.ts:543`),
in source order. -/
def commitKeywords : List Str :=
  ["addressed", "fixed", "resolved", "updated"].map String.data

/-- Does the pattern `<kw> in commit [a-f0-9]{6,40}` (case-insensitive)
match at the start of `s`?  An unanchored `test` succeeds exactly when at
least 6 hex characters follow, so the check is on the greedy capped run. -/
def commitMatchAt (kw : Str) (s : Str) : Bool :=
  startsWithCI (kw ++ " in commit ".data) s &&
  decide (6 ≤ (takeHexRun 40 (s.drop (kw ++ " in commit ".data).length)).length)

/-- Unanchored scan of one `<kw> in commit <hex>` pattern over a body. -/
def commitScan (kw : Str) : Str → Bool
  | [] => commitMatchAt kw []
  | c :: rest => commitMatchAt kw (c :: rest) || commitScan kw rest

/-- `hasCodeRabbitResolutionMessage` (`processors.ts:97`), also
`CodeRabbitDetector.hasAddressedInCommitMessage` (`processors.ts:528`):
`patterns.some(p => p.test(body))` over the four keyword patterns. -/
def hasCodeRabbitResolutionMessage (comment : Comment) : Bool :=
  commitKeywords.any (fun kw => commitScan kw comment.body)

/-- `{...reaction, type: normalizeReactionType(reaction.type)}`. -/
def normalizeReaction (r : Reaction) : Reaction :=
  { r with type := normalizeReactionType r.type }

/-- The synthetic reaction literal of `classifyReactions`
(`processors.ts:78-83`): a `thumbs_up` by the comment's author at
`updatedAt || createdAt`, flagged synthetic. -/
def syntheticReactionFor (comment : Comment) : Reaction :=
  { type := "thumbs_up".data
    user := comment.author
    createdAt := comment.updatedAt.getD comment.createdAt
    synthetic := true }

/-- `classifyReactions` (`processors.ts:63`): normalize the existing
reactions, then append the synthetic reaction when the body carries a
resolution-in-commit message. -/
def classifyReactions (comments : List Comment) : List Comment :=
  if comments.isEmpty then []
  else comments.map (fun comment =>
    let reactions := comment.reactions.map normalizeReaction
    let reactions :=
      if hasCodeRabbitResolutionMessage comment then
        reactions ++ [syntheticReactionFor comment]
      else reactions
    comment.withReactions reactions)

/-- Bot-login table of `isHumanUser` (`processors.ts:363-372`): the regular
expressions `/bot$/i`, `/\[bot\]/i` and the six anchored automation-account
patterns, evaluated on the case-folded login. -/
def botLoginMatch (login : Str) : Bool :=
  let l := toLowerStr login
  endsWithStr l "bot".data ||
  containsStr l "[bot]".data ||
  startsWithStr "dependabot".data l ||
  startsWithStr "renovate".data l ||
  startsWithStr "github-actions".data l ||
  startsWithStr "codecov".data l ||
  startsWithStr "sonarcloud".data l ||
  startsWithStr "coderabbit".data l

/-- `isHumanUser` (`processors.ts:356`). -/
def isHumanUser (user : User) : Bool :=
  if user.type == "Bot".data then false
  else !botLoginMatch user.login

/-- Conversational-indicator table of `hasConversationalIndicators`
(`processors.ts:335-348`).  The entry `you're right` is assembled around an
explicit apostrophe character. -/
def replyIndicators : List Str :=
  ["thanks", "thank you", "fixed", "done", "updated", "addressed",
   "good point"].map String.data ++
  ["you".data ++ [Char.ofNat 39] ++ "re right".data] ++
  ["agreed", "disagree", "actually", "however"].map String.data

/-- `hasConversationalIndicators` (`processors.ts:325`): an `@author`
mention of the original comment's author, or any indicator phrase, in the
lower-cased reply body. -/
def hasConversationalIndicators (potentialReply originalComment : Comment) : Bool :=
  let replyBody := toLowerStr potentialReply.body
  let originalAuthor := toLowerStr originalComment.author.login
  if containsStr replyBody ('@' :: originalAuthor) then true
  else replyIndicators.any (fun indicator => containsStr replyBody indicator)

/-- Milliseconds in the 7-day reply window (`processors.ts:309`). -/
def maxReplyWindow : Int := 7 * 24 * 60 * 60 * 1000

/-- `findConversationalReplies` (`processors.ts:294`): iterate the comment
map in order, skip the comment itself and bot authors, keep candidates
inside the `(0, 7 days]` window that carry conversational indicators. -/
def findConversationalReplies (comment : Comment) (commentMap : List Comment) :
    List Comment :=
  commentMap.filter (fun potentialReply =>
    if potentialReply.id == comment.id || !isHumanUser potentialReply.author then
      false
    else
      let timeDiff := potentialReply.createdAt - comment.createdAt
      decide (0 < timeDiff) && decide (timeDiff ≤ maxReplyWindow) &&
      hasConversationalIndicators potentialReply comment)

/-- Stable insertion of a comment after every accumulated comment whose
creation time is `≤` its own. -/
def insertByCreated (c : Comment) : List Comment → List Comment
  | [] => [c]
  | d :: ds =>
      if d.createdAt ≤ c.createdAt then d :: insertByCreated c ds
      else c :: d :: ds

/-- `replies.sort((a, b) => a.createdAt.getTime() - b.createdAt.getTime())`
(`processors.ts:287`): `Array.prototype.sort` is stable (ES2019), so the
call is modelled by a stable insertion sort on creation time. -/
def sortByCreated (replies : List Comment) : List Comment :=
  replies.foldl (fun acc c => insertByCreated c acc) []

/-- The direct-reply pass of `findHumanReplies` (`processors.ts:271-278`):
map entries whose `inReplyToId` equals the target id, kept only when the
author is human. -/
def directReplies (comment : Comment) (commentMap : List Comment) : List Comment :=
  commentMap.filter (fun potentialReply =>
    potentialReply.inReplyToId == some comment.id &&
    isHumanUser potentialReply.author)

/-- `findHumanReplies` (`processors.ts:267`): direct replies, the heuristic
fallback when none exist, then the stable sort by creation time. -/
def findHumanReplies (comment : Comment) (commentMap : List Comment) : List Comment :=
  let replies := directReplies comment commentMap
  let replies :=
    if replies.isEmpty then findConversationalReplies comment commentMap
    else replies
  sortByCreated replies

/-- One `Map.set` step: a JavaScript `Map` keeps the original position of an
existing key and overwrites its value, otherwise appends. -/
def mapInsert (m : List Comment) (c : Comment) : List Comment :=
  if m.any (fun d => d.id == c.id) then
    m.map (fun d => if d.id == c.id then c else d)
  else m ++ [c]

/-- The `commentMap` built by `detectReplies` (`processors.ts:118-119`),
modelled as the map's insertion-ordered entry list. -/
def buildCommentMap (comments : List Comment) : List Comment :=
  comments.foldl mapInsert []

/-- `detectReplies` (`processors.ts:112`). -/
def detectReplies (comments : List Comment) : List Comment :=
  if comments.isEmpty then []
  else
    let commentMap := buildCommentMap comments
    comments.map (fun comment =>
      comment.withReplies (findHumanReplies comment commentMap))

/-- `CodeRabbitDetector.extractCommitHash` (`processors.ts:542`), one
keyword alternative at a fixed position: the greedy hex capture, requiring
at least 6 characters. -/
def extractAtKw (kw : Str) (s : Str) : Option Str :=
  if startsWithCI (kw ++ " in commit ".data) s then
    if 6 ≤ (takeHexRun 40 (s.drop (kw ++ " in commit ".data).length)).length then
      some (takeHexRun 40 (s.drop (kw ++ " in commit ".data).length))
    else none
  else none

/-- The alternation `(?:addressed|fixed|resolved|updated)` at a fixed
position, alternatives tried in source order. -/
def extractAt (s : Str) : Option Str :=
  match extractAtKw "addressed".data s with
  | some h => some h
  | none =>
    match extractAtKw "fixed".data s with
    | some h => some h
    | none =>
      match extractAtKw "resolved".data s with
      | some h => some h
      | none => extractAtKw "updated".data s

/-- Left-to-right unanchored scan of the `extractCommitHash` pattern. -/
def extractScan : Str → Option Str
  | [] => extractAt []
  | c :: rest =>
      match extractAt (c :: rest) with
      | some h => some h
      | none => extractScan rest

/-- `CodeRabbitDetector.extractCommitHash` (`processors.ts:542`): the first
(leftmost) match's capture group, or `none`. -/
def extractCommitHash (comment : Comment) : Option Str :=
  extractScan comment.body

/-- The processing composition of the `analyze` CLI command
(`src/cli.ts:146-150`): `classifyReactions(detectReplies(detectResolution(comments)))`. -/
def analyzePipeline (comments : List Comment) : List Comment :=
  classifyReactions (detectReplies (detectResolution comments))

/- ---------------------------------------------------------------- -/
/- Derived forms and specification-side definitions. -/

/-- The per-comment reaction list produced by `classifyReactions`:
normalized existing reactions with the synthetic reaction appended when the
body carries a resolution-in-commit message. -/
def classifiedReactionsOf (comment : Comment) : List Reaction :=
  if hasCodeRabbitResolutionMessage comment then
    comment.reactions.map normalizeReaction ++ [syntheticReactionFor comment]
  else comment.reactions.map normalizeReaction

/-- The reply list of `findHumanReplies` before the final sort: the direct
replies, or the heuristic candidates when no direct reply exists. -/
def rawReplies (comment : Comment) (commentMap : List Comment) : List Comment :=
  if (directReplies comment commentMap).isEmpty then
    findConversationalReplies comment commentMap
  else directReplies comment commentMap

/-- Specification-side restatement of the resolution rule: an explicit
marker, or at least two positive-kind reactions, or an edit
(`updatedAt > createdAt`) together with a resolution-intent keyword. -/
def isResolvedSpec (comment : Comment) : Bool :=
  explicitMarkers.any (fun marker => containsStr (toLowerStr comment.body) marker) ||
  decide (2 ≤ (comment.reactions.filter (fun r => positiveTypes.contains r.type)).length) ||
  (match comment.updatedAt with
   | some u =>
       decide (comment.createdAt < u) &&
       resolutionKeywords.any (fun keyword => containsStr (toLowerStr comment.body) keyword)
   | none => false)

/- ---------------------------------------------------------------- -/
/- Concrete inputs used by the closed evaluations below. -/

def userAlice : User := { login := "alice".data, type := "User".data, id := 1 }

def userRabbit : User := { login := "coderabbitai[bot]".data, type := "User".data, id := 2 }

def userBotTyped : User := { login := "helper".data, type := "Bot".data, id := 3 }

def thumbsUpBy (u : User) (t : Int) : Reaction :=
  { type := "thumbs_up".data, user := u, createdAt := t, synthetic := false }

def plusOneRawBy (u : User) (t : Int) : Reaction :=
  { type := "PlusOne".data, user := u, createdAt := t, synthetic := false }

/-- Body `"[RESOLVED] done"`, no reactions. -/
def exMarkerComment : Comment :=
  .mk 10 "[RESOLVED] done".data userRabbit 0 (some 0) false [] [] none

/-- Two `thumbs_up` reactions, neutral body. -/
def exTwoThumbsComment : Comment :=
  .mk 11 "look at this line".data userRabbit 0 (some 0) false
    [thumbsUpBy userAlice 5, thumbsUpBy userAlice 6] [] none

/-- Exactly one `thumbs_up` and no other signal. -/
def exOneThumbComment : Comment :=
  .mk 12 "please rename this variable".data userRabbit 0 (some 0) false
    [thumbsUpBy userAlice 5] [] none

/-- Body `"Fixed in commit abc1234567"`. -/
def exFixedCommitComment : Comment :=
  .mk 13 "Fixed in commit abc1234567".data userRabbit 0 (some 3) false [] [] none

/-- A body with no commit-resolution message. -/
def exPlainComment : Comment :=
  .mk 14 "could you explain this loop".data userRabbit 0 (some 0) false [] [] none

/-- No marker, a single positive reaction, no resolution keyword. -/
def exNoSignalComment : Comment :=
  .mk 15 "what is the reason for this change".data userRabbit 0 (some 4) false
    [thumbsUpBy userAlice 5] [] none

/-- Two reactions whose raw kind `"PlusOne"` only becomes positive after
normalization. -/
def exRawPlusOnePair : Comment :=
  .mk 16 "look over there".data userRabbit 0 (some 0) false
    [plusOneRawBy userAlice 5, plusOneRawBy userAlice 6] [] none

/-- An AI comment awaiting replies. -/
def exAIComment : Comment :=
  .mk 20 "consider extracting a helper".data userRabbit 0 (some 0) false [] [] none

/-- A human reply one hour later carrying a conversational indicator. -/
def exHumanReply : Comment :=
  .mk 21 "thanks, will do".data userAlice 3600000 (some 3600000) false [] [] none

/-- A human direct reply via `inReplyToId`. -/
def exHumanDirectReply : Comment :=
  .mk 22 "agreed, fixing now".data userAlice 7200000 (some 7200000) false [] []
    (some 20)

/-- A bot-typed direct reply via `inReplyToId`. -/
def exBotDirectReply : Comment :=
  .mk 23 "automated note".data userBotTyped 7200000 (some 7200000) false [] []
    (some 20)

/- ---------------------------------------------------------------- -/
/- Field-preservation lemmas for the copy-on-write record updates. -/

@[simp] theorem withResolved_id (c : Comment) (v : Bool) : (c.withResolved v).id = c.id := by
  cases c; rfl

@[simp] theorem withResolved_body (c : Comment) (v : Bool) : (c.withResolved v).body = c.body := by
  cases c; rfl

@[simp] theorem withResolved_author (c : Comment) (v : Bool) : (c.withResolved v).author = c.author := by
  cases c; rfl

@[simp] theorem withResolved_createdAt (c : Comment) (v : Bool) : (c.withResolved v).createdAt = c.createdAt := by
  cases c; rfl

@[simp] theorem withResolved_updatedAt (c : Comment) (v : Bool) : (c.withResolved v).updatedAt = c.updatedAt := by
  cases c; rfl

@[simp] theorem withResolved_isResolved (c : Comment) (v : Bool) : (c.withResolved v).isResolved = v := by
  cases c; rfl

@[simp] theorem withResolved_reactions (c : Comment) (v : Bool) : (c.withResolved v).reactions = c.reactions := by
  cases c; rfl

@[simp] theorem withResolved_replies (c : Comment) (v : Bool) : (c.withResolved v).replies = c.replies := by
  cases c; rfl

@[simp] theorem withResolved_inReplyToId (c : Comment) (v : Bool) : (c.withResolved v).inReplyToId = c.inReplyToId := by
  cases c; rfl

@[simp] theorem withReactions_id (c : Comment) (v : List Reaction) : (c.withReactions v).id = c.id := by
  cases c; rfl

@[simp] theorem withReactions_body (c : Comment) (v : List Reaction) : (c.withReactions v).body = c.body := by
  cases c; rfl

@[simp] theorem withReactions_author (c : Comment) (v : List Reaction) : (c.withReactions v).author = c.author := by
  cases c; rfl

@[simp] theorem withReactions_createdAt (c : Comment) (v : List Reaction) : (c.withReactions v).createdAt = c.createdAt := by
  cases c; rfl

@[simp] theorem withReactions_updatedAt (c : Comment) (v : List Reaction) : (c.withReactions v).updatedAt = c.updatedAt := by
  cases c; rfl

@[simp] theorem withReactions_isResolved (c : Comment) (v : List Reaction) : (c.withReactions v).isResolved = c.isResolved := by
  cases c; rfl

@[simp] theorem withReactions_reactions (c : Comment) (v : List Reaction) : (c.withReactions v).reactions = v := by
  cases c; rfl

@[simp] theorem withReactions_replies (c : Comment) (v : List Reaction) : (c.withReactions v).replies = c.replies := by
  cases c; rfl

@[simp] theorem withReactions_inReplyToId (c : Comment) (v : List Reaction) : (c.withReactions v).inReplyToId = c.inReplyToId := by
  cases c; rfl

@[simp] theorem withReplies_id (c : Comment) (v : List Comment) : (c.withReplies v).id = c.id := by
  cases c; rfl

@[simp] theorem withReplies_body (c : Comment) (v : List Comment) : (c.withReplies v).body = c.body := by
  cases c; rfl

@[simp] theorem withReplies_author (c : Comment) (v : List Comment) : (c.withReplies v).author = c.author := by
  cases c; rfl

@[simp] theorem withReplies_createdAt (c : Comment) (v : List Comment) : (c.withReplies v).createdAt = c.createdAt := by
  cases c; rfl

@[simp] theorem withReplies_updatedAt (c : Comment) (v : List Comment) : (c.withReplies v).updatedAt = c.updatedAt := by
  cases c; rfl

@[simp] theorem withReplies_isResolved (c : Comment) (v : List Comment) : (c.withReplies v).isResolved = c.isResolved := by
  cases c; rfl

@[simp] theorem withReplies_reactions (c : Comment) (v : List Comment) : (c.withReplies v).reactions = c.reactions := by
  cases c; rfl

@[simp] theorem withReplies_replies (c : Comment) (v : List Comment) : (c.withReplies v).replies = v := by
  cases c; rfl

@[simp] theorem withReplies_inReplyToId (c : Comment) (v : List Comment) : (c.withReplies v).inReplyToId = c.inReplyToId := by
  cases c; rfl

/- The classifiers that read body and reactions ignore the derived fields. -/

theorem isCommentResolved_withResolved (c : Comment) (v : Bool) :
    isCommentResolved (c.withResolved v) = isCommentResolved c := by
  cases c; rfl

theorem isCommentResolved_withReplies (c : Comment) (v : List Comment) :
    isCommentResolved (c.withReplies v) = isCommentResolved c := by
  cases c; rfl

theorem hasMessage_withResolved (c : Comment) (v : Bool) :
    hasCodeRabbitResolutionMessage (c.withResolved v) = hasCodeRabbitResolutionMessage c := by
  cases c; rfl

theorem hasMessage_withReplies (c : Comment) (v : List Comment) :
    hasCodeRabbitResolutionMessage (c.withReplies v) = hasCodeRabbitResolutionMessage c := by
  cases c; rfl

theorem syntheticFor_withResolved (c : Comment) (v : Bool) :
    syntheticReactionFor (c.withResolved v) = syntheticReactionFor c := by
  cases c; rfl

theorem syntheticFor_withReplies (c : Comment) (v : List Comment) :
    syntheticReactionFor (c.withReplies v) = syntheticReactionFor c := by
  cases c; rfl

/- Each stage, with its empty-input guard resolved, is a `map`. -/

theorem detectResolution_eq_map (xs : List Comment) :
    detectResolution xs = xs.map (fun c => c.withResolved (isCommentResolved c)) := by
  cases xs <;> rfl

theorem classifyReactions_eq_map (xs : List Comment) :
    classifyReactions xs = xs.map (fun c => c.withReactions (classifiedReactionsOf c)) := by
  cases xs with
  | nil => rfl
  | cons a l =>
      show List.map _ _ = List.map _ _
      refine List.map_congr_left (fun c _ => ?_)
      unfold classifiedReactionsOf
      cases h : hasCodeRabbitResolutionMessage c <;> simp [h]

theorem detectReplies_eq_map (xs : List Comment) :
    detectReplies xs =
      xs.map (fun c => c.withReplies (findHumanReplies c (buildCommentMap xs))) := by
  cases xs <;> rfl

/-- `Forall₂` between a list and its image under a map. -/
theorem forall2_map_self {α β : Type} (f : α → β) (R : α → β → Prop)
    (h : ∀ a, R a (f a)) (l : List α) : List.Forall₂ R l (l.map f) := by
  induction l with
  | nil => exact List.Forall₂.nil
  | cons a t ih => exact List.Forall₂.cons (h a) ih

/-- Claim C7: each pipeline stage (`detectResolution`, `classifyReactions`,
`detectReplies`) returns a sequence in which only the stage's derived field
(`isResolved`, `reactions`, `replies` respectively) is (re)populated and
every other field of every comment is unchanged.  (The input itself is
untouched: every stage is a pure function of its argument.) -/
theorem pipeline_stages_copy_on_write :
    (∀ xs : List Comment, List.Forall₂ (fun c o =>
        o.id = c.id ∧ o.body = c.body ∧ o.author = c.author ∧
        o.createdAt = c.createdAt ∧ o.updatedAt = c.updatedAt ∧
        o.reactions = c.reactions ∧ o.replies = c.replies ∧
        o.inReplyToId = c.inReplyToId ∧ o.isResolved = isCommentResolved c)
      xs (detectResolution xs)) ∧
    (∀ xs : List Comment, List.Forall₂ (fun c o =>
        o.id = c.id ∧ o.body = c.body ∧ o.author = c.author ∧
        o.createdAt = c.createdAt ∧ o.updatedAt = c.updatedAt ∧
        o.isResolved = c.isResolved ∧ o.replies = c.replies ∧
        o.inReplyToId = c.inReplyToId ∧ o.reactions = classifiedReactionsOf c)
      xs (classifyReactions xs)) ∧
    (∀ xs : List Comment, List.Forall₂ (fun c o =>
        o.id = c.id ∧ o.body = c.body ∧ o.author = c.author ∧
        o.createdAt = c.createdAt ∧ o.updatedAt = c.updatedAt ∧
        o.isResolved = c.isResolved ∧ o.reactions = c.reactions ∧
        o.inReplyToId = c.inReplyToId ∧
        o.replies = findHumanReplies c (buildCommentMap xs))
      xs (detectReplies xs)) := by
  refine ⟨fun xs => ?_, fun xs => ?_, fun xs => ?_⟩
  · rw [detectResolution_eq_map]
    exact forall2_map_self _ _ (fun c => by simp) xs
  · rw [classifyReactions_eq_map]
    exact forall2_map_self _ _ (fun c => by simp) xs
  · rw [detectReplies_eq_map]
    exact forall2_map_self _ _ (fun c => by simp) xs

/-- Claim C10: `detectResolution` is idempotent — the resolution decision
reads only body, reactions and timestamps, never the incoming `isResolved`
field. -/
theorem detectResolution_idempotent (xs : List Comment) :
    detectResolution (detectResolution xs) = detectResolution xs := by
  rw [detectResolution_eq_map, detectResolution_eq_map, List.map_map]
  refine List.map_congr_left (fun c _ => ?_)
  show (c.withResolved (isCommentResolved c)).withResolved
      (isCommentResolved (c.withResolved (isCommentResolved c))) =
    c.withResolved (isCommentResolved c)
  rw [isCommentResolved_withResolved]
  cases c; rfl

/- ---------------------------------------------------------------- -/
/- Resolution rule (C1) and reaction normalization (C2). -/

theorem isCommentResolved_disjunction (c : Comment) :
    isCommentResolved c =
      (hasExplicitResolutionMarkers c || hasResolutionThroughEngagement c ||
       hasResolutionThroughEdits c) := by
  unfold isCommentResolved
  cases hasExplicitResolutionMarkers c <;>
    cases hasResolutionThroughEngagement c <;>
    cases hasResolutionThroughEdits c <;> rfl

theorem engagement_eq_count (c : Comment) :
    hasResolutionThroughEngagement c =
      decide (2 ≤ (c.reactions.filter (fun r => isPositiveReaction r.type)).length) := by
  unfold hasResolutionThroughEngagement
  cases h : c.reactions with
  | nil => simp [h]
  | cons a l => simp [h]

theorem isResolvedSpec_eq (c : Comment) : isCommentResolved c = isResolvedSpec c := by
  rw [isCommentResolved_disjunction, engagement_eq_count]
  unfold isResolvedSpec hasExplicitResolutionMarkers hasResolutionThroughEdits
  unfold isPositiveReaction
  cases hu : c.updatedAt with
  | none => rfl
  | some u =>
      by_cases h : c.createdAt < u <;> simp [h]

/-- Claim C1: `isCommentResolved` is true exactly when the body carries one
of the explicit markers, or the comment has at least two positive-kind
reactions (fixed threshold 2), or it was edited (`updatedAt > createdAt`)
and the body carries a resolution-intent keyword; in particular it is true
for body `"[RESOLVED] done"`, true for two `thumbs_up` reactions, and false
for one `thumbs_up` with no other signal. -/
theorem isCommentResolved_spec_equiv :
    (∀ c : Comment, isCommentResolved c = isResolvedSpec c) ∧
    isCommentResolved exMarkerComment = true ∧
    isCommentResolved exTwoThumbsComment = true ∧
    isCommentResolved exOneThumbComment = false :=
  ⟨isResolvedSpec_eq, by decide, by decide, by decide⟩

/-- Every alias-table value is a member of the closed reaction table. -/
theorem alias_values_closed :
    ∀ q ∈ reactionAliases, validReactionTypes.contains q.2 = true := by decide

theorem normalizeReactionType_closed (s : Str) :
    validReactionTypes.contains (normalizeReactionType s) = true ∨
    normalizeReactionType s = "unknown".data := by
  unfold normalizeReactionType
  by_cases h : validReactionTypes.contains (stripToLowerAlpha s) = true
  · left
    rw [if_pos h]
    exact h
  · rw [if_neg h]
    cases hf : reactionAliases.find? (fun p => p.1 == stripToLowerAlpha s) with
    | none => right; rfl
    | some p =>
        left
        exact alias_values_closed p (List.mem_of_find?_eq_some hf)

/-- Claim C2 (code bug): normalization is total and lands in the closed
enumeration, and `"plusone"` and `"PlusOne"` map to `thumbs_up`, but the
raw GitHub kind `"+1"` maps to `unknown`: the `replace(/[^a-z_]/g, '')`
strip runs before the alias lookup, which makes the `'+1'` and `'-1'`
entries of the source's own alias table unreachable. -/
theorem normalizeReactionType_plusOne_bug :
    normalizeReactionType "+1".data = "unknown".data ∧
    normalizeReactionType "-1".data = "unknown".data ∧
    normalizeReactionType "plusone".data = "thumbs_up".data ∧
    normalizeReactionType "PlusOne".data = "thumbs_up".data ∧
    (∀ s : Str, validReactionTypes.contains (normalizeReactionType s) = true ∨
      normalizeReactionType s = "unknown".data) :=
  ⟨by decide, by decide, by decide, by decide, normalizeReactionType_closed⟩

/- ---------------------------------------------------------------- -/
/- The analyze pipeline order (C3) and synthetic reactions (C4). -/

theorem classifiedReactionsOf_withResolved (c : Comment) (v : Bool) :
    classifiedReactionsOf (c.withResolved v) = classifiedReactionsOf c := by
  cases c; rfl

theorem classifiedReactionsOf_withReplies (c : Comment) (v : List Comment) :
    classifiedReactionsOf (c.withReplies v) = classifiedReactionsOf c := by
  cases c; rfl

/-- Claim C3 (corrected): the analyze command applies `detectResolution`
first, so the engagement clause of resolution reads the raw, un-normalized
input reactions and never sees synthetic reactions; here the pipeline output
carries two positive-kind normalized real reactions yet `isResolved` is
false. -/
theorem analyzePipeline_normalization_counterexample :
    (analyzePipeline [exRawPlusOnePair]).map Comment.isResolved = [false] ∧
    (analyzePipeline [exRawPlusOnePair]).map
      (fun o => (o.reactions.filter (fun r => isPositiveReaction r.type)).length) = [2] ∧
    (analyzePipeline [exRawPlusOnePair]).map
      (fun o => o.reactions.all (fun r => !r.synthetic)) = [true] := by
  refine ⟨by decide, by decide, by decide⟩

/-- Claim C3 (amended): in the analyze pipeline the `isResolved` flag of
every output comment is computed by `isCommentResolved` on the raw input
comment — before reaction normalization and before any synthetic reaction is
added — while the output `reactions` field carries the normalized reactions
with the synthetic one appended. -/
theorem analyzePipeline_resolution_raw (xs : List Comment) :
    List.Forall₂ (fun c o => o.isResolved = isCommentResolved c ∧
      o.reactions = classifiedReactionsOf c) xs (analyzePipeline xs) := by
  unfold analyzePipeline
  rw [detectResolution_eq_map, detectReplies_eq_map, classifyReactions_eq_map,
    List.map_map, List.map_map]
  refine forall2_map_self _ _ (fun c => ⟨?_, ?_⟩) xs
  · simp [Function.comp]
  · simp [Function.comp, classifiedReactionsOf_withReplies,
      classifiedReactionsOf_withResolved]

theorem extractAtKw_none_of_no_match (kw s : Str) (h : commitMatchAt kw s = false) :
    extractAtKw kw s = none := by
  unfold commitMatchAt at h
  unfold extractAtKw
  by_cases h1 : startsWithCI (kw ++ " in commit ".data) s = true
  · rw [h1, Bool.true_and] at h
    rw [if_pos h1, if_neg (by simpa using h)]
  · rw [if_neg h1]

theorem extractAt_none_of_no_match (s : Str)
    (h1 : commitMatchAt "addressed".data s = false)
    (h2 : commitMatchAt "fixed".data s = false)
    (h3 : commitMatchAt "resolved".data s = false)
    (h4 : commitMatchAt "updated".data s = false) :
    extractAt s = none := by
  unfold extractAt
  rw [extractAtKw_none_of_no_match _ _ h1, extractAtKw_none_of_no_match _ _ h2,
    extractAtKw_none_of_no_match _ _ h3, extractAtKw_none_of_no_match _ _ h4]

theorem extractScan_none_of_no_message (s : Str)
    (h : ∀ kw ∈ commitKeywords, commitScan kw s = false) :
    extractScan s = none := by
  induction s with
  | nil => decide
  | cons c rest ih =>
      have hm : ∀ kw ∈ commitKeywords, commitMatchAt kw (c :: rest) = false := by
        intro kw hk
        have hkw := h kw hk
        unfold commitScan at hkw
        exact (Bool.or_eq_false_iff.mp hkw).1
      have hs : ∀ kw ∈ commitKeywords, commitScan kw rest = false := by
        intro kw hk
        have hkw := h kw hk
        unfold commitScan at hkw
        exact (Bool.or_eq_false_iff.mp hkw).2
      show extractScan (c :: rest) = none
      unfold extractScan
      rw [extractAt_none_of_no_match _ (hm _ (by decide)) (hm _ (by decide))
        (hm _ (by decide)) (hm _ (by decide))]
      exact ih hs

theorem extractCommitHash_none_of_no_message (c : Comment)
    (h : hasCodeRabbitResolutionMessage c = false) : extractCommitHash c = none := by
  unfold hasCodeRabbitResolutionMessage at h
  rw [List.any_eq_false] at h
  refine extractScan_none_of_no_message c.body (fun kw hk => ?_)
  simpa using h kw hk

/-- Claim C4: when a body matches `(addressed|fixed|resolved|updated) in
commit <hex 6-40>`, `classifyReactions` appends to the comment's existing
(normalized) reactions a single synthetic `thumbs_up` by the comment's own
author, timestamped at `updatedAt` with fallback to `createdAt`; and
`extractCommitHash` returns the captured hex group (`"abc1234567"` for body
`"Fixed in commit abc1234567"`) or nothing when the body does not match. -/
theorem classifyReactions_synthetic_spec :
    (∀ xs : List Comment, List.Forall₂ (fun c o =>
        o.reactions = c.reactions.map normalizeReaction ++
          (if hasCodeRabbitResolutionMessage c then
            [{ type := "thumbs_up".data, user := c.author,
               createdAt := c.updatedAt.getD c.createdAt, synthetic := true }]
           else [])) xs (classifyReactions xs)) ∧
    extractCommitHash exFixedCommitComment = some "abc1234567".data ∧
    (∀ c : Comment, hasCodeRabbitResolutionMessage c = false →
      extractCommitHash c = none) := by
  refine ⟨fun xs => ?_, by decide, extractCommitHash_none_of_no_message⟩
  rw [classifyReactions_eq_map]
  refine forall2_map_self _ _ (fun c => ?_) xs
  rw [withReactions_reactions]
  unfold classifiedReactionsOf syntheticReactionFor
  cases h : hasCodeRabbitResolutionMessage c <;> simp [h]

/-- Witness for the absent-hash direction of `classifyReactions_synthetic_spec`
at a concrete body with no resolution-in-commit message. -/
theorem classifyReactions_synthetic_spec_witness :
    hasCodeRabbitResolutionMessage exPlainComment = false ∧
    extractCommitHash exPlainComment = none :=
  ⟨by decide, classifyReactions_synthetic_spec.2.2 exPlainComment (by decide)⟩

/- ---------------------------------------------------------------- -/
/- The stable sort of `findHumanReplies` (C8) and reply linking (C5, C6). -/

theorem mem_insertByCreated {x c : Comment} {l : List Comment} :
    x ∈ insertByCreated c l ↔ x = c ∨ x ∈ l := by
  induction l with
  | nil => simp [insertByCreated]
  | cons d ds ih =>
      unfold insertByCreated
      by_cases h : d.createdAt ≤ c.createdAt
      · rw [if_pos h]
        simp only [List.mem_cons, ih]
        tauto
      · rw [if_neg h]
        simp only [List.mem_cons]

theorem pairwise_insertByCreated {c : Comment} {l : List Comment}
    (h : List.Pairwise (fun x y => x.createdAt ≤ y.createdAt) l) :
    List.Pairwise (fun x y => x.createdAt ≤ y.createdAt) (insertByCreated c l) := by
  induction l with
  | nil => simp [insertByCreated]
  | cons d ds ih =>
      rw [List.pairwise_cons] at h
      obtain ⟨hd, hds⟩ := h
      unfold insertByCreated
      by_cases hle : d.createdAt ≤ c.createdAt
      · rw [if_pos hle]
        rw [List.pairwise_cons]
        refine ⟨fun x hx => ?_, ih hds⟩
        rcases mem_insertByCreated.mp hx with rfl | hx
        · exact hle
        · exact hd x hx
      · rw [if_neg hle]
        rw [List.pairwise_cons]
        refine ⟨fun x hx => ?_, List.pairwise_cons.mpr ⟨hd, hds⟩⟩
        rcases List.mem_cons.mp hx with rfl | hx
        · exact le_of_lt (lt_of_not_le hle)
        · exact le_trans (le_of_lt (lt_of_not_le hle)) (hd x hx)

theorem filter_insertByCreated (t : Int) {c : Comment} {l : List Comment}
    (h : List.Pairwise (fun x y => x.createdAt ≤ y.createdAt) l) :
    (insertByCreated c l).filter (fun r => r.createdAt == t) =
      l.filter (fun r => r.createdAt == t) ++
        [c].filter (fun r => r.createdAt == t) := by
  induction l with
  | nil => simp [insertByCreated]
  | cons d ds ih =>
      rw [List.pairwise_cons] at h
      obtain ⟨hd, hds⟩ := h
      unfold insertByCreated
      by_cases hle : d.createdAt ≤ c.createdAt
      · rw [if_pos hle]
        rw [List.filter_cons, List.filter_cons (x := d)]
        cases hdt : (d.createdAt == t) with
        | true => simp [ih hds]
        | false => simp [ih hds]
      · rw [if_neg hle]
        rw [List.filter_cons (x := c)]
        cases hct : (c.createdAt == t) with
        | true =>
            have hnone : ∀ x ∈ d :: ds, ¬((fun r => r.createdAt == t) x = true) := by
              intro x hx hxt
              have hcx : c.createdAt < x.createdAt := by
                rcases List.mem_cons.mp hx with rfl | hx
                · exact lt_of_not_le hle
                · exact lt_of_lt_of_le (lt_of_not_le hle) (hd x hx)
              have h1 : c.createdAt = t := by simpa using hct
              have h2 : x.createdAt = t := by simpa using hxt
              omega
            have hfil : (d :: ds).filter (fun r => r.createdAt == t) = [] :=
              List.filter_eq_nil_iff.mpr hnone
            simp [hfil, hct]
        | false => simp [hct]

theorem sortByCreated_go (l : List Comment) :
    ∀ acc, List.Pairwise (fun x y => x.createdAt ≤ y.createdAt) acc →
      List.Pairwise (fun x y => x.createdAt ≤ y.createdAt)
        (l.foldl (fun a c => insertByCreated c a) acc) ∧
      ∀ t : Int, (l.foldl (fun a c => insertByCreated c a) acc).filter
          (fun r => r.createdAt == t) =
        acc.filter (fun r => r.createdAt == t) ++
          l.filter (fun r => r.createdAt == t) := by
  induction l with
  | nil => exact fun acc hacc => ⟨hacc, fun t => by simp⟩
  | cons c rest ih =>
      intro acc hacc
      have h1 := pairwise_insertByCreated (c := c) hacc
      obtain ⟨hp, hf⟩ := ih (insertByCreated c acc) h1
      refine ⟨hp, fun t => ?_⟩
      rw [List.foldl_cons, hf t, filter_insertByCreated t hacc]
      rw [List.filter_cons (x := c)]
      cases hct : (c.createdAt == t) with
      | true => simp [List.filter_cons, hct]
      | false => simp [List.filter_cons, hct]

theorem mem_sortByCreated {x : Comment} {l : List Comment} :
    x ∈ sortByCreated l ↔ x ∈ l := by
  unfold sortByCreated
  have hgo : ∀ (rest : List Comment) (acc : List Comment),
      x ∈ rest.foldl (fun a c => insertByCreated c a) acc ↔ x ∈ acc ∨ x ∈ rest := by
    intro rest
    induction rest with
    | nil => simp
    | cons c t ih =>
        intro acc
        rw [List.foldl_cons, ih, mem_insertByCreated]
        simp only [List.mem_cons]
        tauto
  rw [hgo l []]
  simp

theorem findHumanReplies_eq_sort (A : Comment) (m : List Comment) :
    findHumanReplies A m = sortByCreated (rawReplies A m) := rfl

/-- Claim C8: the reply list produced by the reply linker is sorted
ascending by reply creation time, and replies with equal creation
timestamps keep the order in which the comment collection yields them
(the pre-sort list `rawReplies`). -/
theorem findHumanReplies_sorted_stable :
    (∀ (A : Comment) (m : List Comment),
      List.Pairwise (fun x y => x.createdAt ≤ y.createdAt) (findHumanReplies A m)) ∧
    (∀ (A : Comment) (m : List Comment) (t : Int),
      (findHumanReplies A m).filter (fun r => r.createdAt == t) =
        (rawReplies A m).filter (fun r => r.createdAt == t)) := by
  constructor
  · intro A m
    rw [findHumanReplies_eq_sort]
    exact (sortByCreated_go (rawReplies A m) [] (by simp)).1
  · intro A m t
    rw [findHumanReplies_eq_sort]
    have h := (sortByCreated_go (rawReplies A m) [] (by simp)).2 t
    simpa using h

/-- Claim C5: the heuristic fallback runs only when the explicit
`inReplyToId` pass yields zero results; under it, a candidate is linked
exactly when its author is human, its creation time lies in the half-open
window `(0, 7 days]` after the target comment, and its body carries an
`@author` mention or a conversational-indicator phrase (assuming, per the
data model, that no comment in the collection shares the target's id with
a different creation time); a comment outside the 7-day window is never a
heuristic candidate. -/
theorem conversationalFallback_characterization :
    (∀ (A : Comment) (m : List Comment), directReplies A m ≠ [] →
      findHumanReplies A m = sortByCreated (directReplies A m)) ∧
    (∀ (A : Comment) (m : List Comment), directReplies A m = [] →
      findHumanReplies A m = sortByCreated (findConversationalReplies A m)) ∧
    (∀ (A C : Comment) (m : List Comment),
      (∀ D ∈ m, D.id = A.id → D.createdAt = A.createdAt) →
      (C ∈ findConversationalReplies A m ↔
        C ∈ m ∧ isHumanUser C.author = true ∧
        0 < C.createdAt - A.createdAt ∧
        C.createdAt - A.createdAt ≤ maxReplyWindow ∧
        hasConversationalIndicators C A = true)) ∧
    (∀ (A C : Comment) (m : List Comment),
      maxReplyWindow < C.createdAt - A.createdAt →
      C ∉ findConversationalReplies A m) := by
  refine ⟨fun A m hne => ?_, fun A m he => ?_, fun A C m hids => ?_, fun A C m hlate hmem => ?_⟩
  · rw [findHumanReplies_eq_sort]
    unfold rawReplies
    cases hd : directReplies A m with
    | nil => exact absurd hd hne
    | cons a l => rw [if_neg (by simp)]
  · rw [findHumanReplies_eq_sort]
    unfold rawReplies
    rw [he]
    simp
  · unfold findConversationalReplies
    rw [List.mem_filter]
    constructor
    · rintro ⟨hCm, hp⟩
      cases hcond : (C.id == A.id || !isHumanUser C.author) with
      | true =>
          rw [if_pos hcond] at hp
          exact absurd hp (by simp)
      | false =>
          rw [if_neg (by simp [hcond])] at hp
          have hhum : isHumanUser C.author = true := by
            simpa using (Bool.or_eq_false_iff.mp hcond).2
          simp only [Bool.and_eq_true, decide_eq_true_eq] at hp
          exact ⟨hCm, hhum, hp.1.1, hp.1.2, hp.2⟩
    · rintro ⟨hCm, hhum, h0, hw, hind⟩
      refine ⟨hCm, ?_⟩
      have hidne : (C.id == A.id) = false := by
        rw [beq_eq_false_iff_ne]
        intro he
        have := hids C hCm he
        omega
      rw [if_neg (by simp [hidne, hhum])]
      simp only [Bool.and_eq_true, decide_eq_true_eq]
      exact ⟨⟨h0, hw⟩, hind⟩
  · unfold findConversationalReplies at hmem
    obtain ⟨_, hp⟩ := List.mem_filter.mp hmem
    cases hcond : (C.id == A.id || !isHumanUser C.author) with
    | true =>
        rw [if_pos hcond] at hp
        exact absurd hp (by simp)
    | false =>
        rw [if_neg (by simp [hcond])] at hp
        simp only [Bool.and_eq_true, decide_eq_true_eq] at hp
        omega

/-- Witness for `conversationalFallback_characterization` at a concrete
collection: a human reply one hour after the AI comment, linked by the
heuristic, and an 8-day-late comment rejected by the window. -/
theorem conversationalFallback_characterization_witness :
    ((∀ D ∈ [exAIComment, exHumanReply], D.id = exAIComment.id →
        D.createdAt = exAIComment.createdAt) ∧
      (exHumanReply ∈ findConversationalReplies exAIComment [exAIComment, exHumanReply] ↔
        exHumanReply ∈ [exAIComment, exHumanReply] ∧
        isHumanUser exHumanReply.author = true ∧
        0 < exHumanReply.createdAt - exAIComment.createdAt ∧
        exHumanReply.createdAt - exAIComment.createdAt ≤ maxReplyWindow ∧
        hasConversationalIndicators exHumanReply exAIComment = true)) ∧
    (maxReplyWindow < 8 * 24 * 60 * 60 * 1000 - exAIComment.createdAt ∧
      (Comment.mk 30 "thanks, fixed and done".data userAlice (8 * 24 * 60 * 60 * 1000)
          (some (8 * 24 * 60 * 60 * 1000)) false [] [] none) ∉
        findConversationalReplies exAIComment
          [exAIComment,
           Comment.mk 30 "thanks, fixed and done".data userAlice (8 * 24 * 60 * 60 * 1000)
             (some (8 * 24 * 60 * 60 * 1000)) false [] [] none]) :=
  ⟨⟨by decide,
    conversationalFallback_characterization.2.2.1 exAIComment exHumanReply
      [exAIComment, exHumanReply] (by decide)⟩,
   ⟨by decide,
    conversationalFallback_characterization.2.2.2 exAIComment
      (Comment.mk 30 "thanks, fixed and done".data userAlice (8 * 24 * 60 * 60 * 1000)
        (some (8 * 24 * 60 * 60 * 1000)) false [] [] none)
      [exAIComment,
       Comment.mk 30 "thanks, fixed and done".data userAlice (8 * 24 * 60 * 60 * 1000)
         (some (8 * 24 * 60 * 60 * 1000)) false [] [] none]
      (by decide)⟩⟩

/-- Claim C6: a user is classified non-human exactly when `accountType` is
`Bot` or the login matches a bot pattern (either check alone suffices); a
direct reply (`inReplyToId` hit) authored by a human appears among the
target's replies, and no comment with a non-human author ever appears. -/
theorem human_detection_reply_linking :
    (∀ u : User, isHumanUser u = false ↔
      (u.type = "Bot".data ∨ botLoginMatch u.login = true)) ∧
    (∀ (A B : Comment) (m : List Comment), B ∈ m →
      B.inReplyToId = some A.id → isHumanUser B.author = true →
      B ∈ findHumanReplies A m) ∧
    (∀ (A B : Comment) (m : List Comment), isHumanUser B.author = false →
      B ∉ findHumanReplies A m) := by
  refine ⟨fun u => ?_, fun A B m hBm hrep hhum => ?_, fun A B m hbot hmem => ?_⟩
  · unfold isHumanUser
    by_cases ht : (u.type == "Bot".data) = true
    · rw [if_pos ht]
      have ht' : u.type = "Bot".data := by simpa using ht
      simp [ht']
    · rw [if_neg ht]
      have ht' : ¬(u.type = "Bot".data) := by simpa using ht
      cases hb : botLoginMatch u.login <;> simp [hb, ht']
  · rw [findHumanReplies_eq_sort]
    have hBd : B ∈ directReplies A m := by
      unfold directReplies
      rw [List.mem_filter]
      exact ⟨hBm, by simp [hrep, hhum]⟩
    unfold rawReplies
    cases hd : directReplies A m with
    | nil => rw [hd] at hBd; exact absurd hBd (List.not_mem_nil B)
    | cons a l =>
        rw [if_neg (by simp)]
        rw [hd] at hBd
        exact mem_sortByCreated.mpr hBd
  · rw [findHumanReplies_eq_sort] at hmem
    have hmem' := mem_sortByCreated.mp hmem
    unfold rawReplies at hmem'
    by_cases hd : (directReplies A m).isEmpty = true
    · rw [if_pos hd] at hmem'
      unfold findConversationalReplies at hmem'
      obtain ⟨_, hp⟩ := List.mem_filter.mp hmem'
      rw [if_pos (by simp [hbot])] at hp
      exact absurd hp (by simp)
    · rw [if_neg hd] at hmem'
      unfold directReplies at hmem'
      obtain ⟨_, hp⟩ := List.mem_filter.mp hmem'
      simp [hbot] at hp

/-- Witness for `human_detection_reply_linking`: a mixed collection in which
the human direct reply is linked and the bot-typed direct reply is not. -/
theorem human_detection_reply_linking_witness :
    exHumanDirectReply ∈ findHumanReplies exAIComment
      [exAIComment, exHumanDirectReply, exBotDirectReply] ∧
    exBotDirectReply ∉ findHumanReplies exAIComment
      [exAIComment, exHumanDirectReply, exBotDirectReply] :=
  ⟨human_detection_reply_linking.2.1 exAIComment exHumanDirectReply
      [exAIComment, exHumanDirectReply, exBotDirectReply]
      (List.Mem.tail _ (List.Mem.head _)) (by decide) (by decide),
   human_detection_reply_linking.2.2 exAIComment exBotDirectReply
      [exAIComment, exHumanDirectReply, exBotDirectReply] (by decide)⟩

/-- Claim C9: the classifier and processor operations are total Lean
functions by construction; an empty comment list yields an empty result at
every stage, an unrecognized reaction string (no table hit, no alias hit)
yields `unknown`, and a comment with no marker, fewer than two positive
reactions and no resolution keyword is classified unresolved rather than
failing. -/
theorem processors_total_defaults :
    detectResolution [] = [] ∧ classifyReactions [] = [] ∧ detectReplies [] = [] ∧
    (∀ s : Str, validReactionTypes.contains (stripToLowerAlpha s) = false →
      reactionAliases.find? (fun p => p.1 == stripToLowerAlpha s) = none →
      normalizeReactionType s = "unknown".data) ∧
    (∀ c : Comment,
      (∀ marker ∈ explicitMarkers, containsStr (toLowerStr c.body) marker = false) →
      (c.reactions.filter (fun r => isPositiveReaction r.type)).length < 2 →
      (∀ keyword ∈ resolutionKeywords, containsStr (toLowerStr c.body) keyword = false) →
      isCommentResolved c = false) := by
  refine ⟨rfl, rfl, rfl, fun s hv ha => ?_, fun c hmk hcnt hkw => ?_⟩
  · unfold normalizeReactionType
    rw [if_neg (by rw [hv]; simp), ha]
  · rw [isCommentResolved_disjunction]
    have h1 : hasExplicitResolutionMarkers c = false := by
      unfold hasExplicitResolutionMarkers
      rw [List.any_eq_false]
      intro marker hm
      simp [hmk marker hm]
    have h2 : hasResolutionThroughEngagement c = false := by
      rw [engagement_eq_count]
      simpa using hcnt
    have h3 : hasResolutionThroughEdits c = false := by
      unfold hasResolutionThroughEdits
      cases hu : c.updatedAt with
      | none => rfl
      | some u =>
          show (if c.createdAt < u then
              resolutionKeywords.any (fun keyword => containsStr (toLowerStr c.body) keyword)
            else false) = false
          by_cases hlt : c.createdAt < u
          · rw [if_pos hlt, List.any_eq_false]
            intro keyword hk
            simp [hkw keyword hk]
          · rw [if_neg hlt]
    rw [h1, h2, h3]
    rfl

/-- Witness for `processors_total_defaults`: the unmapped reaction string
`"wave"` and a signal-free concrete comment. -/
theorem processors_total_defaults_witness :
    normalizeReactionType "wave".data = "unknown".data ∧
    isCommentResolved exNoSignalComment = false :=
  ⟨processors_total_defaults.2.2.2.1 "wave".data (by decide) (by decide),
   processors_total_defaults.2.2.2.2 exNoSignalComment (by decide) (by decide)
     (by decide)⟩
